import Mathlib

/-!
# Verification of the `piper` disk-space reclaimer

A shallow embedding, in Lean 4, of the core of the `piper` repository:

* the crawler/classifier (`src/spyder.rs`, `Spyder::crawl` / `Spyder::analyze_entry`),
* the archiver (`src/compressor.rs`, `compress_file` / `compress_single_file` /
  `compress_directory` / `finalize_compression`), and
* the job orchestrator (`src/app.rs`, `App` and its command handlers and
  message-draining control loop `App::tick`).

Machine integers (`u64` sizes) are modelled as `Nat`; all arithmetic on them in
the source is addition, saturating subtraction and comparison, far from `2^64`
on any realizable byte count, so no wraparound is modelled.  `f64` scores are
modelled as exact rationals (`ℚ`).  Filesystem and channel effects are made
explicit: the filesystem seen by the crawler is a list of directory entries,
the archiver emits an explicit list of disk operations, and the channel of a
background job is a list of messages handed to `tick`.
-/

namespace Piper

/-! ## Crawler / classifier (src/spyder.rs)

The walker is `ignore::WalkBuilder::new(root).hidden(false).git_ignore(false)
.build()`: hidden-file filtering and gitignore filtering are both disabled, and
no `filter_entry` / pruning of any kind is installed, so the iterator yields
*every* entry of the tree rooted at `root`, each exactly once (we model trees
containing no ignore files, so the remaining default filters match nothing).
We therefore model the walked filesystem directly as the finite list of entries
the walker yields: each entry is a path (list of components from the root,
starting with the root itself) plus its kind (directory, or regular file with a
byte size and the age in seconds of its last access). -/

/-- Kind and metadata of one filesystem entry, as read by the crawler:
`entry.file_type()` plus, for files, `metadata.len()` and
`now.duration_since(metadata.accessed()).as_secs()`. -/
inductive FsKind where
  | dir : FsKind
  | file (size : Nat) (accessedSecsAgo : Nat) : FsKind
deriving DecidableEq, Repr

/-- One entry yielded by the directory walker. -/
structure FsEntry where
  path : List String
  kind : FsKind
deriving DecidableEq, Repr

/-- `entry.file_name()`: the last component of the entry's path. -/
def FsEntry.fileName (e : FsEntry) : String := e.path.getLastD ""

/-- Size of an entry when it is a regular file (`metadata.len()`), `0` for a
directory; used only under an `is_file` filter, matching the source. -/
def FsEntry.fileSize (e : FsEntry) : Nat :=
  match e.kind with
  | .dir => 0
  | .file size _ => size

/-- Whether the entry is a regular file (`file_type().is_file()`). -/
def FsEntry.isFile (e : FsEntry) : Bool :=
  match e.kind with
  | .dir => false
  | .file _ _ => true

/-- Split a file name's characters at the last `.`: `some (stem, ext)` where
`stem` is everything before that dot and `ext` everything after, `none` when
there is no dot. -/
def lastDotSplit : List Char → Option (List Char × List Char)
  | [] => none
  | c :: cs =>
    match lastDotSplit cs with
    | some (st, ex) => some (c :: st, ex)
    | none => if c = '.' then some ([], cs) else none

/-- `Path::extension()` of a file name: the portion after the last `.`,
`none` when the name contains no `.` or when the last `.` is the leading
character (a dotfile such as `.gitignore` has no extension in Rust). -/
def pathExtension (name : String) : Option String :=
  match lastDotSplit name.toList with
  | some (st, ex) => if st = [] then none else some (String.mk ex)
  | none => none

/-- `Spyder::get_dir_size` (also `compressor::get_dir_size`):
`WalkDir::new(path)` over the subtree — in the entry-list model, the entries
whose path extends `p` — keeping `is_file` entries and summing `metadata.len()`. -/
def get_dir_size (fs : List FsEntry) (p : List String) : Nat :=
  ((fs.filter (fun e => p.isPrefixOf e.path && e.isFile)).map FsEntry.fileSize).sum

/-- `ScannedItem` of src/spyder.rs. -/
structure ScannedItem where
  path : List String
  size : Nat
  reason : String
deriving DecidableEq, Repr

/-- `Spyder::analyze_entry`, verbatim branch for branch.  The whole walked
entry list `fs` stands in for the live filesystem that `get_dir_size`
re-traverses. -/
def analyze_entry (fs : List FsEntry) (e : FsEntry) : Option ScannedItem :=
  let fileName := e.fileName
  -- Safety: Always skip .git to avoid corrupting repo history
  if fileName = ".git" then none
  else
    match e.kind with
    | .dir =>
      -- Check 1: Heavy Directories (node_modules, etc)
      if fileName = "node_modules" ∨ fileName = "target" ∨ fileName = "venv"
          ∨ fileName = ".venv" then
        some { path := e.path
               size := get_dir_size fs e.path
               reason := "Heavy Dependency Folder: " ++ fileName }
      else none
    | .file size accessedSecsAgo =>
      -- Check 2: Stale Logs
      match pathExtension fileName with
      | some ext =>
        if (ext = "log" ∨ ext = "txt" ∨ ext = "old")
            ∧ size > 1024 * 1024
            ∧ accessedSecsAgo > 30 * 24 * 60 * 60 then
          some { path := e.path, size := size
                 reason := "Stale Log File (>30 days)" }
        else none
      | none => none

/-- One insertion step of the size-descending sort: an element moves left past
strictly smaller sizes only, so equal sizes keep their relative order, as
Rust's stable `sort_by(|a, b| b.size.cmp(&a.size))` does. -/
def insertBySizeDesc (x : ScannedItem) : List ScannedItem → List ScannedItem
  | [] => [x]
  | y :: ys => if x.size ≤ y.size then y :: insertBySizeDesc x ys else x :: y :: ys

/-- `final_results.sort_by(|a, b| b.size.cmp(&a.size))`: stable sort by size,
descending. -/
def sortBySizeDesc : List ScannedItem → List ScannedItem
  | [] => []
  | x :: xs => insertBySizeDesc x (sortBySizeDesc xs)

/-- `Spyder::crawl`: analyze every walked entry (the parallel workers
accumulate one result per matching entry into the shared list; the
accumulation order is irrelevant after the final sort), then sort by size
descending. -/
def crawl (fs : List FsEntry) : List ScannedItem :=
  sortBySizeDesc (fs.filterMap (analyze_entry fs))

/-- A root holding a heavy-dependency directory nested inside another
heavy-dependency directory, with one 5-byte payload file at the bottom. -/
def nestedHeavyFs : List FsEntry :=
  [ { path := ["root"], kind := .dir },
    { path := ["root", "node_modules"], kind := .dir },
    { path := ["root", "node_modules", "node_modules"], kind := .dir },
    { path := ["root", "node_modules", "node_modules", "blob"], kind := .file 5 0 } ]

/-- A repository whose `.git` directory contains a heavy-dependency-named
directory with one 7-byte file. -/
def gitRepoFs : List FsEntry :=
  [ { path := ["repo"], kind := .dir },
    { path := ["repo", ".git"], kind := .dir },
    { path := ["repo", ".git", "node_modules"], kind := .dir },
    { path := ["repo", ".git", "node_modules", "blob"], kind := .file 7 0 } ]

/-! ## Archiver (src/compressor.rs)

`compress_single_file` / `compress_directory` act on three on-disk artifacts
with deterministically derived, pairwise distinct names: the original
(`input_path`), the temporary output (`temp_path`), and the final output
(`output_path`, the original name plus the `.zst` or `.tar.zst` suffix).  We
model the disk as the presence flags of these three artifacts and the body of
a compress call as the list of disk operations it performs, in order.  The
encoder's compressed byte count (`temp_path.metadata()?.len()`) and, for
directories, the aggregate original size (`get_dir_size`) are inputs of the
model; `encodeOk` is whether the streaming encode step itself succeeded. -/

/-- Presence of the three artifacts of one compress call. -/
structure DiskState where
  origPresent : Bool
  tempPresent : Bool
  outPresent : Bool
deriving DecidableEq, Repr

/-- Disk before a compress call: only the original exists. -/
def initialDisk : DiskState := { origPresent := true, tempPresent := false, outPresent := false }

/-- The disk operations a compress call performs, in source order. -/
inductive FsOp where
  | createTemp      -- File::create(&temp_path) + streaming write
  | renameTempToOut -- std::fs::rename(temp_path, output_path)
  | removeOrig      -- std::fs::remove_file(input_path) / remove_dir_all(input_path)
  | removeTemp      -- std::fs::remove_file(temp_path)
deriving DecidableEq, Repr

/-- Effect of one disk operation on the three presence flags. -/
def applyOp (s : DiskState) : FsOp → DiskState
  | .createTemp => { s with tempPresent := true }
  | .renameTempToOut => { s with tempPresent := false, outPresent := true }
  | .removeOrig => { s with origPresent := false }
  | .removeTemp => { s with tempPresent := false }

/-- Run a trace of disk operations. -/
def runOps (s : DiskState) (ops : List FsOp) : DiskState := ops.foldl applyOp s

/-- Which path a `CompressionStats.output_path` names. -/
inductive PathTag where
  | orig          -- input_path.to_path_buf()
  | compressedOut -- output_path.to_path_buf()
deriving DecidableEq, Repr

/-- `CompressionStats` of src/compressor.rs. -/
structure CompressionStats where
  original_size : Nat
  compressed_size : Nat
  output_path : PathTag
deriving DecidableEq, Repr

/-- `finalize_compression(input_path, output_path, temp_path, original_size)`:
compare the temp file's size with the original; if strictly smaller, rename
the temp file onto the final name and then delete the original; otherwise
delete the temp file and report `compressed_size = original_size` with the
original path as output.  Returns the operations performed and the stats. -/
def finalize_compression (original_size compressed_size : Nat) :
    List FsOp × CompressionStats :=
  if compressed_size < original_size then
    ([.renameTempToOut, .removeOrig],
     { original_size := original_size, compressed_size := compressed_size
       output_path := .compressedOut })
  else
    ([.removeTemp],
     { original_size := original_size, compressed_size := original_size
       output_path := .orig })

/-- `compress_single_file(input_path, level, original_size)`: create and
stream-fill the temp file; if the encode fails, remove the temp file and
return the error; otherwise finalize.  `compressed_size` is the byte size the
temp file ends up with, `encodeOk` whether `zstd::stream::copy_encode`
succeeded. -/
def compress_single_file (original_size compressed_size : Nat) (encodeOk : Bool) :
    List FsOp × Option CompressionStats :=
  if encodeOk then
    let fin := finalize_compression original_size compressed_size
    (.createTemp :: fin.1, some fin.2)
  else
    ([.createTemp, .removeTemp], none)

/-- `compress_directory(input_path, level)`: compute the aggregate original
size, pack-and-compress into the temp file, then the same
compare-rename-remove / discard logic, inlined in the source (a tar/encode
failure returns early with `?`, leaving the temp file behind). -/
def compress_directory (original_size compressed_size : Nat) (packOk : Bool) :
    List FsOp × Option CompressionStats :=
  if packOk then
    if compressed_size < original_size then
      ([.createTemp, .renameTempToOut, .removeOrig],
       some { original_size := original_size, compressed_size := compressed_size
              output_path := .compressedOut })
    else
      ([.createTemp, .removeTemp],
       some { original_size := original_size, compressed_size := original_size
              output_path := .orig })
  else
    ([.createTemp], none)

/-- `compress_file(input_path, level)`: dispatch on `metadata.is_dir()`. -/
def compress_file (isDir : Bool) (original_size compressed_size : Nat) (ok : Bool) :
    List FsOp × Option CompressionStats :=
  if isDir then compress_directory original_size compressed_size ok
  else compress_single_file original_size compressed_size ok

/-! ## Job orchestrator (src/app.rs)

The control loop is single-threaded; background workers communicate only via
an `mpsc` channel drained by `App::tick`.  We model the channel contents as
the list of messages handed to `tick` (drained only when a receiver is
installed, `rxOpen`), the `u64` counters as `Nat`, and the `f64` Weissman
score as an exact rational.  `sysinfo` refreshes, thread spawns, the `trash`
crate and on-disk history persistence are external collaborators: the two
filesystem facts `delete_item` consumes — whether a path exists and whether
`trash::delete` succeeds on it — enter as oracle functions, and history
entries are recorded without their wall-clock timestamp string. -/

/-- `FileStatus` of src/app.rs. -/
inductive FileStatus where
  | Found | Compressing | Done | Error | Deleted | Restored
deriving DecidableEq, Repr

/-- `FileItem` of src/app.rs. -/
structure FileItem where
  path : String
  original_size : Nat
  compressed_size : Option Nat
  status : FileStatus
  reason : String
  selected : Bool
deriving DecidableEq, Repr

instance : Inhabited FileItem :=
  ⟨{ path := "", original_size := 0, compressed_size := none, status := .Found
     reason := "", selected := false }⟩

/-- `AppMessage` of src/app.rs. -/
inductive AppMessage where
  | ScanComplete (items : List FileItem)
  | CompressionProgress (idx : Nat) (result : Except String CompressionStats)
  | CompressionDone
  | RestorationDone (idx : Nat) (success : Bool)

/-- Whether a message is a per-item compression progress message. -/
def AppMessage.isProgress : AppMessage → Bool
  | .CompressionProgress _ _ => true
  | _ => false

/-- The item index a compression progress message addresses (0 otherwise). -/
def AppMessage.progressIdx : AppMessage → Nat
  | .CompressionProgress i _ => i
  | _ => 0

/-- `HistoryEntry` of src/analytics.rs, minus the wall-clock timestamp. -/
structure HistoryEntry where
  original_size : Nat
  compressed_size : Nat
  savings : Nat
deriving DecidableEq, Repr

/-- The orchestrator state `App` of src/app.rs.  Presentation-only fields
(`view`, `current_tab`, `show_details`, the sysinfo readings) that no claim
touches are omitted; `cursor` is `list_state.selected()` and `rxOpen` is
`rx.is_some()`. -/
structure App where
  items : List FileItem
  cursor : Option Nat
  weissman_score : ℚ
  total_savings : Nat
  is_scanning : Bool
  is_compressing : Bool
  is_restoring : Bool
  spinner_state : Nat
  scan_path : String
  compression_level : Int
  rxOpen : Bool
  history : List HistoryEntry
  session_savings : Nat
  session_original : Nat
  session_compressed : Nat
deriving Repr

/-- `App::new(scan_path, compression_level)`; `AnalyticsHistory::load()` is
disk I/O, modelled as starting from the empty history. -/
def App.new (scan_path : String) (compression_level : Int) : App where
  items := []
  cursor := some 0
  weissman_score := 5.2
  total_savings := 0
  is_scanning := false
  is_compressing := false
  is_restoring := false
  spinner_state := 0
  scan_path := scan_path
  compression_level := compression_level
  rxOpen := false
  history := []
  session_savings := 0
  session_original := 0
  session_compressed := 0

/-- The body of `App::calculate_score` as a function of the item list:
`Σ original_size / Σ (compressed_size unwrap_or original_size) × 2.6`,
and `0` when the denominator is zero. -/
def scoreOf (items : List FileItem) : ℚ :=
  let total_original : Nat := (items.map (fun i => i.original_size)).sum
  let total_compressed : Nat := (items.map (fun i => i.compressed_size.getD i.original_size)).sum
  if 0 < total_compressed then
    ((total_original : ℚ) / (total_compressed : ℚ)) * 2.6
  else 0

/-- `App::calculate_score`. -/
def calculate_score (a : App) : App := { a with weissman_score := scoreOf a.items }

/-- In-place mutation `self.items[i] = f(self.items[i])` on the item list;
out-of-range indices leave the list unchanged. -/
def modifyItem (f : FileItem → FileItem) : Nat → List FileItem → List FileItem
  | _, [] => []
  | 0, x :: xs => f x :: xs
  | n + 1, x :: xs => x :: modifyItem f n xs

/-- The per-item field mutations of the `CompressionProgress` arm of
`App::tick`: record the compressed size, then classify `Done` on strict
savings and `Error` ("No savings or size increased") otherwise; a failed
worker result just marks `Error`. -/
def progUpd : Except String CompressionStats → FileItem → FileItem
  | .ok stats, it =>
    let it := { it with compressed_size := some stats.compressed_size }
    if stats.original_size > stats.compressed_size then
      { it with status := .Done }
    else
      { it with status := .Error, reason := "No savings or size increased" }
  | .error _, it => { it with status := .Error }

/-- Increment that the `CompressionProgress` arm adds to `total_savings` and
`session_savings`: `original_size - compressed_size` on strict savings,
nothing otherwise. -/
def progSavings : Except String CompressionStats → Nat
  | .ok stats =>
    if stats.original_size > stats.compressed_size then
      stats.original_size - stats.compressed_size
    else 0
  | .error _ => 0

/-- Increment added to `session_original` (only the strict-savings branch
tracks session totals). -/
def progOriginal : Except String CompressionStats → Nat
  | .ok stats => if stats.original_size > stats.compressed_size then stats.original_size else 0
  | .error _ => 0

/-- Increment added to `session_compressed`. -/
def progCompressed : Except String CompressionStats → Nat
  | .ok stats => if stats.original_size > stats.compressed_size then stats.compressed_size else 0
  | .error _ => 0

/-- The body of the `CompressionProgress(idx, result)` arm of `App::tick`'s
message loop: mutate item `idx` and the savings accumulators as
`progUpd`/`progSavings`/... describe, then `self.calculate_score()`. -/
def progressStep (idx : Nat) (result : Except String CompressionStats) (a : App) : App :=
  calculate_score
    { a with
      items := modifyItem (progUpd result) idx a.items
      total_savings := a.total_savings + progSavings result
      session_savings := a.session_savings + progSavings result
      session_original := a.session_original + progOriginal result
      session_compressed := a.session_compressed + progCompressed result }

/-- The `CompressionProgress(idx, result)` arm of `App::tick`'s message loop,
guarded by `idx < self.items.len()`. -/
def applyProgress (idx : Nat) (result : Except String CompressionStats) (a : App) : App :=
  if idx < a.items.length then progressStep idx result a else a

/-- One message application of `App::tick`'s drain loop; the `Bool` component
is the loop-local `session_finished` flag. -/
def applyMsg (s : App × Bool) (msg : AppMessage) : App × Bool :=
  let a := s.1
  match msg with
  | .ScanComplete newItems =>
    let a := { a with items := newItems, is_scanning := false, rxOpen := false }
    (if ¬ a.items.isEmpty then { a with cursor := some 0 } else a, s.2)
  | .CompressionProgress idx result => (applyProgress idx result a, s.2)
  | .CompressionDone =>
    ({ a with is_compressing := false, rxOpen := false }, true)
  | .RestorationDone idx success =>
    let a :=
      if idx < a.items.length ∧ success = true then
        let it := a.items.getD idx default
        let savings :=
          match it.compressed_size with
          | some compressed =>
            if it.original_size > compressed then
              a.total_savings - (it.original_size - compressed)
            else a.total_savings
          | none => a.total_savings
        calculate_score
          { a with
            items := modifyItem
              (fun i => { i with status := .Restored, compressed_size := none }) idx a.items
            total_savings := savings }
      else if idx < a.items.length then
        { a with items := modifyItem (fun i => { i with status := .Error }) idx a.items }
      else a
    ({ a with is_restoring := false, rxOpen := false }, s.2)

/-- `App::tick`, with the `sysinfo` refresh (pure presentation data) omitted:
when a scan or compression is active, advance the spinner, drain every message
currently on the channel (none when no receiver is installed), and persist one
history entry when the terminating message arrived and the session saved
anything.  `incoming` is the queue contents this tick. -/
def tick (a : App) (incoming : List AppMessage) : App :=
  if a.is_scanning ∨ a.is_compressing then
    let a := { a with spinner_state := (a.spinner_state + 1) % 4 }
    let msgs := if a.rxOpen then incoming else []
    let s := msgs.foldl applyMsg (a, false)
    if s.2 = true ∧ s.1.session_savings > 0 then
      { s.1 with
        history := s.1.history ++
          [{ original_size := s.1.session_original
             compressed_size := s.1.session_compressed
             savings := s.1.session_original - s.1.session_compressed }] }
    else s.1
  else a

/-- `App::start_scan`: silently rejected while scanning or compressing;
otherwise reset the item list and metrics, set the scanning flag and install
the channel (the spawned crawler worker is external; its `ScanComplete`
message arrives through `tick`). -/
def start_scan (a : App) : App :=
  if a.is_scanning ∨ a.is_compressing then a
  else
    { a with
      is_scanning := true
      items := []
      weissman_score := 0
      total_savings := 0
      rxOpen := true }

/-- Predicate of `start_compression`'s target filter: status is `Found`, and
when anything is selected, only selected items. -/
def compressTargetPred (has_selection : Bool) (it : FileItem) : Bool :=
  it.status == FileStatus.Found && (!has_selection || it.selected)

/-- The `(index, item)` enumeration filter of `App::start_compression`,
projected to indices. -/
def compressTargets (a : App) : List Nat :=
  let has_selection := a.items.any (fun i => i.selected)
  (a.items.enum.filter (fun p => compressTargetPred has_selection p.2)).map Prod.fst

/-- `App::start_compression`: silently rejected while scanning or compressing;
otherwise reset session stats, install the channel, collect the targets
(selected-only when any selection exists, else all `Found`), and mark every
target `Compressing` synchronously (the parallel workers are external; their
messages arrive through `tick`). -/
def start_compression (a : App) : App :=
  if a.is_scanning ∨ a.is_compressing then a
  else
    let a := { a with
      is_compressing := true
      session_savings := 0
      session_original := 0
      session_compressed := 0
      rxOpen := true }
    { a with
      items := (compressTargets a).foldl
        (fun its i => modifyItem (fun it => { it with status := .Compressing }) i its)
        a.items }

/-- The target indices of `App::delete_item`: the selected items when any
selection exists, else the single cursor item. -/
def deleteTargets (a : App) : List Nat :=
  if a.items.any (fun i => i.selected) then
    (a.items.enum.filter (fun p => p.2.selected)).map Prod.fst
  else
    match a.cursor with
    | some i => [i]
    | none => []

/-- One iteration of `App::delete_item`'s target loop: skip out-of-range
indices; for an in-range target whose path exists on disk, move it to the
trash — on success mark `Deleted`, record `compressed_size = 0` and credit the
full original size as savings, on failure mark `Error`; a target whose path
does not exist is skipped entirely.  `pathExists` is `Path::exists` and
`trashOk` the success of `trash::delete`, both external facts. -/
def deleteStep (pathExists trashOk : String → Bool) (acc : App) (i : Nat) : App :=
  if i < acc.items.length then
    if pathExists (acc.items.getD i default).path then
      if trashOk (acc.items.getD i default).path then
        { acc with
          items := modifyItem
            (fun it => { it with status := .Deleted, compressed_size := some 0 })
            i acc.items
          total_savings := acc.total_savings + (acc.items.getD i default).original_size }
      else
        { acc with items := modifyItem (fun it => { it with status := .Error }) i acc.items }
    else acc
  else acc

/-- `App::delete_item` (synchronous): run the target loop, then recompute the
score once at the end. -/
def delete_item (pathExists trashOk : String → Bool) (a : App) : App :=
  calculate_score ((deleteTargets a).foldl (deleteStep pathExists trashOk) a)

/-- `App::restore_item`: rejected while any job is active; acts on the cursor
item only when in range and `Done` — optimistically mark it `Compressing`,
set the restoring flag and install the channel (the decompress worker is
external; its `RestorationDone` message arrives through `tick`). -/
def restore_item (a : App) : App :=
  if a.is_scanning ∨ a.is_compressing ∨ a.is_restoring then a
  else
    match a.cursor with
    | some i =>
      if i < a.items.length then
        if (a.items.getD i default).status = .Done then
          { a with
            is_restoring := true
            items := modifyItem (fun it => { it with status := .Compressing }) i a.items
            rxOpen := true }
        else a
      else a
    | none => a

/-- The `'s'` key of `App::handle_dashboard_input`. -/
def scanCommand (a : App) : App := start_scan a

/-- The `'c'` key of `App::handle_dashboard_input`. -/
def compressCommand (a : App) : App := start_compression a

/-- The `'d'` key of `App::handle_dashboard_input`, with its guard
`!is_compressing && !is_restoring`. -/
def deleteCommand (pathExists trashOk : String → Bool) (a : App) : App :=
  if ¬ a.is_compressing ∧ ¬ a.is_restoring then delete_item pathExists trashOk a else a

/-- The `'e'` key of `App::handle_dashboard_input`, with its guard
`!is_compressing && !is_restoring`. -/
def restoreCommand (a : App) : App :=
  if ¬ a.is_compressing ∧ ¬ a.is_restoring then restore_item a else a

/-- Number of simultaneously active job flags; the spec's four-valued
`JobState` exists exactly when this never exceeds one. -/
def activeFlagCount (a : App) : Nat :=
  (if a.is_scanning then 1 else 0) + (if a.is_compressing then 1 else 0)
    + (if a.is_restoring then 1 else 0)

/-- The app is in exactly one of {Idle, Scanning, Compressing, Restoring}. -/
def ExclusiveJobState (a : App) : Prop := activeFlagCount a ≤ 1

instance (a : App) : Decidable (ExclusiveJobState a) :=
  inferInstanceAs (Decidable (activeFlagCount a ≤ 1))

/-! ### Concrete fixtures used by counterexamples and witnesses -/

/-- The single candidate item of the C4 scenario. -/
def c4Item : FileItem :=
  { path := "proj/node_modules", original_size := 100, compressed_size := none
    status := .Found, reason := "Heavy Dependency Folder: node_modules", selected := false }

/-- A reachable state with a restoration in flight: scan, receive one
candidate, compress it successfully, then restore the cursor item. -/
def c4Restoring : App :=
  let a := App.new "proj" 15
  let a := scanCommand a
  let a := tick a [.ScanComplete [c4Item]]
  let a := compressCommand a
  let a := tick a [.CompressionProgress 0 (.ok ⟨100, 10, .compressedOut⟩), .CompressionDone]
  restoreCommand a

/-- A state with both a scan and a compression marked active, exercising every
guard of `c4_guards` at once. -/
def c4Busy : App := { App.new "w" 15 with is_scanning := true, is_compressing := true }

/-- Two-item state for the C8 witness: first item selected and `Found`,
second unselected and `Found`. -/
def c8App : App := { App.new "w" 15 with
  items :=
    [ { path := "a", original_size := 10, compressed_size := none, status := .Found
        reason := "", selected := true },
      { path := "b", original_size := 20, compressed_size := none, status := .Found
        reason := "", selected := false } ] }

/-- One-item state for the C9 witness; its item's path will be reported
missing by the `pathExists` oracle. -/
def c9App : App := { App.new "w" 15 with
  items := [{ path := "gone", original_size := 50, compressed_size := none
              status := .Found, reason := "", selected := false }] }

/-- One-item state for the C7 counterexample: the state right after a scan
completes with one 10-byte candidate. -/
def c7AfterScan : App :=
  tick (scanCommand (App.new "proj" 15))
    [.ScanComplete
      [{ path := "p", original_size := 10, compressed_size := none, status := .Found
         reason := "r", selected := false }]]

/-- Two-item mid-compression state for the C7 witness. -/
def c7App : App := { App.new "w" 15 with
  is_compressing := true
  rxOpen := true
  items :=
    [ { path := "a", original_size := 10, compressed_size := none, status := .Compressing
        reason := "", selected := false },
      { path := "b", original_size := 40, compressed_size := none, status := .Compressing
        reason := "", selected := false } ] }

/-! ## Crawler lemmas -/

theorem mem_insertBySizeDesc {x y : ScannedItem} {l : List ScannedItem} :
    y ∈ insertBySizeDesc x l ↔ y = x ∨ y ∈ l := by
  induction l with
  | nil => simp [insertBySizeDesc]
  | cons z zs ih =>
    simp only [insertBySizeDesc]
    split
    · simp only [List.mem_cons, ih]
      constructor
      · rintro (h | h) <;> tauto
      · rintro (h | h | h) <;> tauto
    · simp only [List.mem_cons]

theorem mem_sortBySizeDesc {y : ScannedItem} {l : List ScannedItem} :
    y ∈ sortBySizeDesc l ↔ y ∈ l := by
  induction l with
  | nil => simp [sortBySizeDesc]
  | cons x xs ih => simp [sortBySizeDesc, mem_insertBySizeDesc, ih]

/-! ## Item-list update lemmas -/

@[simp]
theorem modifyItem_nil (f : FileItem → FileItem) (n : Nat) : modifyItem f n [] = [] := by
  cases n <;> rfl

theorem modifyItem_length (f : FileItem → FileItem) (n : Nat) (l : List FileItem) :
    (modifyItem f n l).length = l.length := by
  induction l generalizing n with
  | nil => simp
  | cons x xs ih => cases n <;> simp [modifyItem, ih]

theorem modifyItem_getElem? (f : FileItem → FileItem) (i j : Nat) (l : List FileItem) :
    (modifyItem f i l)[j]? = if i = j then (l[j]?).map f else l[j]? := by
  induction l generalizing i j with
  | nil => simp
  | cons x xs ih =>
    cases i with
    | zero =>
      cases j with
      | zero => simp [modifyItem]
      | succ j => simp [modifyItem]
    | succ i =>
      cases j with
      | zero => simp [modifyItem]
      | succ j => simpa [modifyItem] using ih i j

theorem modifyItem_comm (f g : FileItem → FileItem) (i j : Nat) (h : i ≠ j)
    (l : List FileItem) :
    modifyItem f i (modifyItem g j l) = modifyItem g j (modifyItem f i l) := by
  induction l generalizing i j with
  | nil => simp
  | cons x xs ih =>
    cases i with
    | zero =>
      cases j with
      | zero => exact absurd rfl h
      | succ j => simp [modifyItem]
    | succ i =>
      cases j with
      | zero => simp [modifyItem]
      | succ j => simp [modifyItem, ih i j (by omega)]

/-! ## Enumerated-index target lists

Both `start_compression` and `delete_item` build their target index list as
`items.iter().enumerate().filter(..).map(|(i, _)| i)`.  These lemmas
characterize membership in such a list and its freedom from duplicates. -/

theorem mem_enumTargets {q : FileItem → Bool} {l : List FileItem} {j : Nat} :
    j ∈ (l.enum.filter (fun p => q p.2)).map Prod.fst
      ↔ ∃ it, l[j]? = some it ∧ q it = true := by
  simp only [List.mem_map, List.mem_filter]
  constructor
  · rintro ⟨⟨i, it⟩, ⟨hmem, hq⟩, rfl⟩
    exact ⟨it, List.mk_mem_enum_iff_getElem?.1 hmem, hq⟩
  · rintro ⟨it, hget, hq⟩
    exact ⟨(j, it), ⟨List.mk_mem_enum_iff_getElem?.2 hget, hq⟩, rfl⟩

theorem nodup_enumTargets (q : FileItem → Bool) (l : List FileItem) :
    ((l.enum.filter (fun p => q p.2)).map Prod.fst).Nodup := by
  have hsub : List.Sublist ((l.enum.filter (fun p => q p.2)).map Prod.fst)
      (l.enum.map Prod.fst) :=
    (List.filter_sublist _).map _
  exact hsub.nodup (List.nodup_enum_map_fst l)

/-- Marking a batch of indices: a position outside the batch is untouched. -/
theorem foldl_modify_getElem?_not_mem (f : FileItem → FileItem) (ts : List Nat)
    (l : List FileItem) (j : Nat) (hj : j ∉ ts) :
    (ts.foldl (fun its i => modifyItem f i its) l)[j]? = l[j]? := by
  induction ts generalizing l with
  | nil => rfl
  | cons t ts ih =>
    have h1 : j ∉ ts := fun hmem => hj (List.mem_cons.2 (Or.inr hmem))
    have h2 : t ≠ j := by rintro rfl; exact hj (List.mem_cons_self t ts)
    rw [List.foldl_cons, ih _ h1, modifyItem_getElem?, if_neg h2]

/-- Marking a batch of pairwise-distinct indices: a position in the batch gets
the update applied exactly once. -/
theorem foldl_modify_getElem?_mem (f : FileItem → FileItem) (ts : List Nat)
    (l : List FileItem) (j : Nat) (hnd : ts.Nodup) (hj : j ∈ ts) :
    (ts.foldl (fun its i => modifyItem f i its) l)[j]? = (l[j]?).map f := by
  induction ts generalizing l with
  | nil => simp at hj
  | cons t ts ih =>
    rw [List.foldl_cons]
    rcases List.mem_cons.1 hj with rfl | hmem
    · rw [foldl_modify_getElem?_not_mem _ _ _ _ (List.nodup_cons.1 hnd).1,
        modifyItem_getElem?, if_pos rfl]
    · have hne : t ≠ j := by rintro rfl; exact (List.nodup_cons.1 hnd).1 hmem
      rw [ih (modifyItem f t l) (List.nodup_cons.1 hnd).2 hmem,
        modifyItem_getElem?, if_neg hne]

/-- The item list after `start_compression` dispatches, position by position:
position `j` carries its old item with status switched to `Compressing` when
that item satisfied the target predicate, and its old item unchanged
otherwise. -/
theorem start_compression_items_getElem? (a : App)
    (hs : a.is_scanning = false) (hc : a.is_compressing = false) (j : Nat) :
    (start_compression a).items[j]? = (a.items[j]?).map (fun it =>
      if compressTargetPred (a.items.any (fun i => i.selected)) it = true
      then { it with status := .Compressing } else it) := by
  have hitems : (start_compression a).items
      = (compressTargets a).foldl
          (fun its i => modifyItem (fun it => { it with status := .Compressing }) i its)
          a.items := by
    simp [start_compression, hs, hc, compressTargets]
  rw [hitems]
  rw [show compressTargets a
      = (a.items.enum.filter
          (fun p => compressTargetPred (a.items.any (fun i => i.selected)) p.2)).map Prod.fst
    from rfl]
  by_cases hmem : j ∈ (a.items.enum.filter
      (fun p => compressTargetPred (a.items.any (fun i => i.selected)) p.2)).map Prod.fst
  · rw [foldl_modify_getElem?_mem _ _ _ _ (nodup_enumTargets _ _) hmem]
    obtain ⟨it, hget, hq⟩ := mem_enumTargets.1 hmem
    rw [hget, Option.map_some', Option.map_some', if_pos hq]
  · rw [foldl_modify_getElem?_not_mem _ _ _ _ hmem]
    cases hget : a.items[j]? with
    | none => rfl
    | some it =>
      rw [Option.map_some']
      by_cases hq : compressTargetPred (a.items.any (fun i => i.selected)) it = true
      · exact absurd (mem_enumTargets.2 ⟨it, hget, hq⟩) hmem
      · rw [if_neg hq]

/-! ## Delete-loop lemmas -/

/-- A position whose item's path the `pathExists` oracle denies is never
touched by the delete target loop, whatever other targets do. -/
theorem deleteFold_preserves (pathExists trashOk : String → Bool) (ts : List Nat)
    (i : Nat) (v : Option FileItem)
    (hv : ∀ it, v = some it → pathExists it.path = false) :
    ∀ acc : App, acc.items[i]? = v →
      (ts.foldl (deleteStep pathExists trashOk) acc).items[i]? = v := by
  induction ts with
  | nil => intro acc h; exact h
  | cons t ts ih =>
    intro acc h
    rw [List.foldl_cons]
    apply ih
    by_cases ht : t = i
    · subst ht
      cases hvv : v with
      | none =>
        rw [hvv] at h
        have hlen : ¬ t < acc.items.length := by
          simpa using List.getElem?_eq_none_iff.1 h
        rw [deleteStep, if_neg hlen, h]
      | some it =>
        rw [hvv] at h
        have hget : acc.items.getD t default = it := by
          rw [List.getD_eq_getElem?_getD, h]; rfl
        rw [deleteStep]
        split
        · simp [hget, hv it hvv, h]
        · exact h
    · have hstep : (deleteStep pathExists trashOk acc t).items[i]? = acc.items[i]? := by
        rw [deleteStep]
        split
        · split
          · split
            · simp [modifyItem_getElem?, ht]
            · simp [modifyItem_getElem?, ht]
          · rfl
        · rfl
      rw [hstep, h]

/-- The delete loop consults the trash facility only on paths the `pathExists`
oracle affirms: two runs whose trash oracles agree on existing paths coincide. -/
theorem deleteStep_trash_congr (pathExists trashOk trashOk' : String → Bool)
    (h : ∀ p, pathExists p = true → trashOk p = trashOk' p) (acc : App) (i : Nat) :
    deleteStep pathExists trashOk acc i = deleteStep pathExists trashOk' acc i := by
  rw [deleteStep, deleteStep]
  split
  · by_cases hp : pathExists (acc.items.getD i default).path = true
    · rw [if_pos hp, if_pos hp, h _ hp]
    · rw [if_neg hp, if_neg hp]
  · rfl

theorem deleteFold_trash_congr (pathExists trashOk trashOk' : String → Bool)
    (h : ∀ p, pathExists p = true → trashOk p = trashOk' p) (ts : List Nat) :
    ∀ acc : App,
      ts.foldl (deleteStep pathExists trashOk) acc
        = ts.foldl (deleteStep pathExists trashOk') acc := by
  induction ts with
  | nil => intro acc; rfl
  | cons t ts ih =>
    intro acc
    rw [List.foldl_cons, List.foldl_cons, deleteStep_trash_congr _ _ _ h, ih]

/-- When every in-range target's path is missing, the delete loop is the
identity. -/
theorem deleteFold_missing_id (pathExists trashOk : String → Bool) (a : App)
    (ts : List Nat)
    (h : ∀ i ∈ ts, ∀ it, a.items[i]? = some it → pathExists it.path = false) :
    ts.foldl (deleteStep pathExists trashOk) a = a := by
  induction ts with
  | nil => rfl
  | cons t ts ih =>
    have hstep : deleteStep pathExists trashOk a t = a := by
      rw [deleteStep]
      split
      · rename_i hlt
        have hget : a.items[t]? = some (a.items.getD t default) := by
          rw [List.getD_eq_getElem?_getD, List.getElem?_eq_getElem hlt]; rfl
        rw [h t (List.mem_cons_self t ts) _ hget]
        simp
      · rfl
    rw [List.foldl_cons, hstep]
    exact ih (fun i hi => h i (List.mem_cons.2 (Or.inr hi)))

/-! ## Progress-message commutation -/

theorem progressStep_length (i : Nat) (r : Except String CompressionStats) (a : App) :
    (progressStep i r a).items.length = a.items.length := by
  simp [progressStep, calculate_score, modifyItem_length]

theorem progressStep_comm (i j : Nat) (ri rj : Except String CompressionStats)
    (h : i ≠ j) (a : App) :
    progressStep j rj (progressStep i ri a) = progressStep i ri (progressStep j rj a) := by
  have hcomm := modifyItem_comm (progUpd rj) (progUpd ri) j i (fun he => h he.symm) a.items
  simp only [progressStep, calculate_score]
  rw [hcomm]
  simp [Nat.add_right_comm]

theorem applyProgress_comm (i j : Nat) (ri rj : Except String CompressionStats)
    (h : i ≠ j) (a : App) :
    applyProgress j rj (applyProgress i ri a) = applyProgress i ri (applyProgress j rj a) := by
  by_cases hi : i < a.items.length <;> by_cases hj : j < a.items.length
  · simp only [applyProgress, progressStep_length, if_pos hi, if_pos hj]
    exact progressStep_comm i j ri rj h a
  · simp only [applyProgress, progressStep_length, if_pos hi, if_neg hj]
  · simp only [applyProgress, progressStep_length, if_neg hi, if_pos hj]
  · simp only [applyProgress, progressStep_length, if_neg hi, if_neg hj]

/-- Two compression progress messages addressed to different items commute
through the control loop's message application. -/
theorem applyMsg_progress_comm (s : App × Bool) (x y : AppMessage)
    (hx : x.isProgress = true) (hy : y.isProgress = true)
    (hxy : x = y ∨ x.progressIdx ≠ y.progressIdx) :
    applyMsg (applyMsg s x) y = applyMsg (applyMsg s y) x := by
  cases x with
  | CompressionProgress i ri =>
    cases y with
    | CompressionProgress j rj =>
      rcases hxy with he | hne
      · rw [he]
      · simp only [applyMsg]
        rw [applyProgress_comm i j ri rj (by simpa [AppMessage.progressIdx] using hne) s.1]
    | ScanComplete items => simp [AppMessage.isProgress] at hy
    | CompressionDone => simp [AppMessage.isProgress] at hy
    | RestorationDone idx success => simp [AppMessage.isProgress] at hy
  | ScanComplete items => simp [AppMessage.isProgress] at hx
  | CompressionDone => simp [AppMessage.isProgress] at hx
  | RestorationDone idx success => simp [AppMessage.isProgress] at hx

/-! ## Claim theorems: crawler (C2, C5) -/

/-- C2 counterexample: on `nestedHeavyFs`, the claim says the crawl yields
exactly one candidate (the outer `node_modules`); the crawler does not prune
the matched subtree, so it yields two. -/
theorem c2_nested_heavy_not_single :
    (crawl nestedHeavyFs).length = 2 ∧ ¬ (crawl nestedHeavyFs).length = 1 := by
  decide

/-- C2 (amended): every heavy-dependency-named directory entry anywhere in the
walked tree — including one nested inside another heavy-dependency directory —
is reported as a candidate whose size is the aggregate of all regular files
under it; the crawler never prunes, so a nested heavy directory yields a
second candidate rather than being absorbed by the outer one. -/
theorem c2_heavy_dir_candidates (fs : List FsEntry) (e : FsEntry)
    (hmem : e ∈ fs) (hdir : e.kind = .dir)
    (hname : e.fileName = "node_modules" ∨ e.fileName = "target"
      ∨ e.fileName = "venv" ∨ e.fileName = ".venv") :
    ({ path := e.path, size := get_dir_size fs e.path
       reason := "Heavy Dependency Folder: " ++ e.fileName } : ScannedItem) ∈ crawl fs := by
  rw [crawl, mem_sortBySizeDesc, List.mem_filterMap]
  refine ⟨e, hmem, ?_⟩
  rcases hname with h | h | h | h <;> simp [analyze_entry, hdir, h]

/-- C2 witness: the inner nested `node_modules` of `nestedHeavyFs` is itself
reported as a candidate, via `c2_heavy_dir_candidates`. -/
theorem c2_heavy_dir_candidates_witness :
    ({ path := ["root", "node_modules", "node_modules"], size := 5
       reason := "Heavy Dependency Folder: node_modules" } : ScannedItem)
      ∈ crawl nestedHeavyFs := by
  have h := c2_heavy_dir_candidates nestedHeavyFs
    { path := ["root", "node_modules", "node_modules"], kind := .dir }
    (by decide) rfl (Or.inl rfl)
  simpa using h

/-- C5: the crawler descends into `.git` and reports candidates there.  On
`gitRepoFs`, the directory `repo/.git/node_modules` is reported, and indeed
every candidate of this crawl lies inside the `.git` directory — contradicting
both the spec's absolute exclusion and the source's own safety comment
("Always skip .git to avoid corrupting repo history"), which is honored only
for the `.git` entry itself, not for its subtree. -/
theorem c5_candidate_inside_git :
    ({ path := ["repo", ".git", "node_modules"], size := 7
       reason := "Heavy Dependency Folder: node_modules" } : ScannedItem) ∈ crawl gitRepoFs
    ∧ ∀ item ∈ crawl gitRepoFs, ".git" ∈ item.path := by
  decide

/-! ## Claim theorems: archiver (C1, C3) -/

/-- C1: a successful compress call (file or directory) ends with exactly one
of {original, compressed output} on disk — never both, never neither — with no
temporary left behind, and whenever the output is committed the rename of the
temporary onto its final name occurs strictly before the removal of the
original. -/
theorem c1_compress_atomic (isDir : Bool) (original_size compressed_size : Nat) :
    (compress_file isDir original_size compressed_size true).2.isSome = true
    ∧ (runOps initialDisk
        (compress_file isDir original_size compressed_size true).1).tempPresent = false
    ∧ (runOps initialDisk
        (compress_file isDir original_size compressed_size true).1).origPresent
      = (!(runOps initialDisk
            (compress_file isDir original_size compressed_size true).1).outPresent)
    ∧ ((runOps initialDisk
          (compress_file isDir original_size compressed_size true).1).outPresent = true →
        (compress_file isDir original_size compressed_size true).1.indexOf FsOp.renameTempToOut
          < (compress_file isDir original_size compressed_size true).1.indexOf FsOp.removeOrig)
    := by
  cases isDir <;> by_cases h : compressed_size < original_size <;>
    simp [compress_file, compress_single_file, compress_directory,
      finalize_compression, h, runOps, applyOp, initialDisk]

/-- C1 witness: the saving single-file case commits the output and its trace
renames the temporary strictly before removing the original. -/
theorem c1_compress_atomic_witness :
    (runOps initialDisk (compress_file false 100 10 true).1).outPresent = true
    ∧ (compress_file false 100 10 true).1.indexOf FsOp.renameTempToOut
        < (compress_file false 100 10 true).1.indexOf FsOp.removeOrig :=
  ⟨by decide, (c1_compress_atomic false 100 10).2.2.2 (by decide)⟩

/-- C3: when the compressed output is not strictly smaller than the original,
the compress call still succeeds, reports `compressed_size = original_size`
with the original path as its output, and the disk is exactly as before the
call: original present, no temporary, no final output. -/
theorem c3_no_savings (isDir : Bool) (original_size compressed_size : Nat)
    (h : ¬ compressed_size < original_size) :
    (compress_file isDir original_size compressed_size true).2
      = some { original_size := original_size, compressed_size := original_size
               output_path := .orig }
    ∧ runOps initialDisk (compress_file isDir original_size compressed_size true).1
      = initialDisk := by
  cases isDir <;>
    simp [compress_file, compress_single_file, compress_directory,
      finalize_compression, h, runOps, applyOp, initialDisk]

/-- C3 witness: a 6-byte file whose compressed form is 20 bytes. -/
theorem c3_no_savings_witness :
    (¬ (20 : Nat) < 6)
    ∧ (compress_file false 6 20 true).2
        = some { original_size := 6, compressed_size := 6, output_path := PathTag.orig }
    ∧ runOps initialDisk (compress_file false 6 20 true).1 = initialDisk :=
  ⟨by decide, (c3_no_savings false 6 20 (by decide)).1, (c3_no_savings false 6 20 (by decide)).2⟩

/-! ## Claim theorems: orchestrator (C4, C6, C7, C8, C9, C10) -/

/-- C4 counterexample: from the reachable Restoring-only state `c4Restoring`,
a scan command is *not* a silent no-op — it proceeds (its guard checks only
the scanning and compressing flags), wipes the non-empty item list, and
leaves the app simultaneously Scanning and Restoring, so the state is no
longer exactly one of {Idle, Scanning, Compressing, Restoring}. -/
theorem c4_scan_during_restore :
    ExclusiveJobState c4Restoring
    ∧ c4Restoring.is_restoring = true
    ∧ c4Restoring.items ≠ []
    ∧ ¬ ExclusiveJobState (scanCommand c4Restoring)
    ∧ (scanCommand c4Restoring).items = [] := by
  decide

/-- C4 (amended): the exclusivity the code actually enforces — scan and
compress commands are silent no-ops while a scan or compression is active,
delete and restore commands are silent no-ops while a compression or
restoration is active, and a restore command is additionally a no-op while a
scan is active; a scan or compress command issued while only a restoration is
active is *not* blocked (see the counterexample). -/
theorem c4_guards (a : App) (pathExists trashOk : String → Bool) :
    ((a.is_scanning = true ∨ a.is_compressing = true) →
        start_scan a = a ∧ start_compression a = a)
    ∧ ((a.is_compressing = true ∨ a.is_restoring = true) →
        deleteCommand pathExists trashOk a = a ∧ restoreCommand a = a)
    ∧ (a.is_scanning = true → restore_item a = a) := by
  refine ⟨fun h => ⟨?_, ?_⟩, fun h => ⟨?_, ?_⟩, fun h => ?_⟩
  · rcases h with h | h <;> simp [start_scan, h]
  · rcases h with h | h <;> simp [start_compression, h]
  · rcases h with h | h <;> simp [deleteCommand, h]
  · rcases h with h | h <;> simp [restoreCommand, restore_item, h]
  · simp [restore_item, h]

/-- C4 witness: all guards of `c4_guards` discharged on `c4Busy`. -/
theorem c4_guards_witness :
    (start_scan c4Busy = c4Busy ∧ start_compression c4Busy = c4Busy)
    ∧ (deleteCommand (fun _ => true) (fun _ => true) c4Busy = c4Busy
        ∧ restoreCommand c4Busy = c4Busy)
    ∧ restore_item c4Busy = c4Busy := by
  have h := c4_guards c4Busy (fun _ => true) (fun _ => true)
  exact ⟨h.1 (Or.inl rfl), h.2.1 (Or.inl rfl), h.2.2 rfl⟩

/-- C10: right after construction the displayed score is 5.2, not the 0 the
score formula yields on the empty item list, and idle ticks (no job active)
leave the whole state — hence the score — untouched, whatever sits on a
channel. -/
theorem c10_initial_score (p : String) (lvl : Int) (msgs : List AppMessage) :
    (App.new p lvl).weissman_score = 5.2
    ∧ scoreOf (App.new p lvl).items = 0
    ∧ (5.2 : ℚ) ≠ 0
    ∧ tick (App.new p lvl) msgs = App.new p lvl := by
  refine ⟨rfl, ?_, by norm_num, ?_⟩
  · have h : (App.new p lvl).items = [] := rfl
    rw [h]; decide
  · simp [tick, App.new]

/-- C6: applying a successful compression progress message whose stats show
`compressed_size ≥ original_size` marks the item `Error` with reason
"No savings or size increased" and credits no savings (neither `total_savings`
nor `session_savings` moves); and a progress message can only make its item
`Done` when `compressed_size < original_size`. -/
theorem c6_no_savings_is_error (a : App) (b : Bool) (idx : Nat) (stats : CompressionStats)
    (hidx : idx < a.items.length) (hge : stats.compressed_size ≥ stats.original_size) :
    let s := applyMsg (a, b) (.CompressionProgress idx (.ok stats))
    (s.1.items.getD idx default).status = .Error
    ∧ (s.1.items.getD idx default).reason = "No savings or size increased"
    ∧ s.1.total_savings = a.total_savings
    ∧ s.1.session_savings = a.session_savings
    ∧ ∀ stats' : CompressionStats,
        ((applyMsg (a, b) (.CompressionProgress idx (.ok stats'))).1.items.getD idx
            default).status = .Done
          → stats'.compressed_size < stats'.original_size := by
  have hng : ¬ stats.original_size > stats.compressed_size := by omega
  refine ⟨?_, ?_, ?_, ?_, ?_⟩
  · simp [applyMsg, applyProgress, progressStep, hidx, calculate_score, modifyItem_getElem?,
      List.getElem?_eq_getElem hidx, progUpd, hng]
  · simp [applyMsg, applyProgress, progressStep, hidx, calculate_score, modifyItem_getElem?,
      List.getElem?_eq_getElem hidx, progUpd, hng]
  · simp [applyMsg, applyProgress, progressStep, hidx, calculate_score, progSavings, hng]
  · simp [applyMsg, applyProgress, progressStep, hidx, calculate_score, progSavings, hng]
  · intro stats' hdone
    by_cases hc : stats'.original_size > stats'.compressed_size
    · omega
    · exfalso
      simp [applyMsg, applyProgress, progressStep, hidx, calculate_score, modifyItem_getElem?,
        List.getElem?_eq_getElem hidx, progUpd, hc] at hdone

/-- C6 witness: a one-item app receiving a 10-byte-to-10-byte result. -/
theorem c6_no_savings_is_error_witness :
    let w : App := { App.new "w" 15 with
      items := [{ path := "a", original_size := 10, compressed_size := none
                  status := .Compressing, reason := "", selected := false }] }
    ((applyMsg (w, false)
        (.CompressionProgress 0 (.ok ⟨10, 10, .orig⟩))).1.items.getD 0 default).status
      = .Error := by
  intro w
  exact (c6_no_savings_is_error w false 0 ⟨10, 10, .orig⟩ (by decide) (by decide)).1

/-- C8: when a compression job is dispatched with at least one selected item,
exactly the selected `Found` items flip to `Compressing` and every other
position keeps its item bit-for-bit (in particular unselected `Found` items
stay `Found`); with nothing selected exactly the `Found` items flip. -/
theorem c8_selection_scoping (a : App)
    (hs : a.is_scanning = false) (hc : a.is_compressing = false) (j : Nat) :
    (a.items.any (fun i => i.selected) = true →
      (start_compression a).items[j]? = (a.items[j]?).map (fun it =>
        if it.status = .Found ∧ it.selected = true
        then { it with status := .Compressing } else it))
    ∧ (a.items.any (fun i => i.selected) = false →
      (start_compression a).items[j]? = (a.items[j]?).map (fun it =>
        if it.status = .Found
        then { it with status := .Compressing } else it)) := by
  constructor
  · intro hsel
    rw [start_compression_items_getElem? a hs hc j, hsel]
    cases a.items[j]? with
    | none => rfl
    | some it =>
      rw [Option.map_some', Option.map_some']
      congr 1
      by_cases h1 : it.status = FileStatus.Found <;> by_cases h2 : it.selected = true <;>
        simp [compressTargetPred, h1, h2]
  · intro hsel
    rw [start_compression_items_getElem? a hs hc j, hsel]
    cases a.items[j]? with
    | none => rfl
    | some it =>
      rw [Option.map_some', Option.map_some']
      congr 1
      by_cases h1 : it.status = FileStatus.Found <;> simp [compressTargetPred, h1]

/-- C8 witness: on `c8App` (first item selected, both `Found`), dispatching
compression marks the selected item `Compressing` and leaves the unselected
item bit-for-bit `Found`. -/
theorem c8_selection_scoping_witness :
    (start_compression c8App).items[0]?
        = some { path := "a", original_size := 10, compressed_size := none
                 status := .Compressing, reason := "", selected := true }
    ∧ (start_compression c8App).items[1]?
        = some { path := "b", original_size := 20, compressed_size := none
                 status := .Found, reason := "", selected := false } := by
  have h0 := (c8_selection_scoping c8App rfl rfl 0).1 (by decide)
  have h1 := (c8_selection_scoping c8App rfl rfl 1).1 (by decide)
  exact ⟨h0.trans (by decide), h1.trans (by decide)⟩

/-- C9: a delete command target whose path does not exist on disk is silently
skipped — its item (status, compressed size, everything) is left bit-for-bit
unchanged; the trash facility is only ever consulted on paths that exist (two
trash oracles agreeing on existing paths give identical outcomes); and when
every target's path is missing the whole deletion is the identity up to the
final score recomputation, so no savings are credited. -/
theorem c9_delete_skips_missing (pathExists trashOk trashOk' : String → Bool) (a : App) :
    (∀ (i : Nat) (it : FileItem), a.items[i]? = some it → pathExists it.path = false →
        (delete_item pathExists trashOk a).items[i]? = some it)
    ∧ ((∀ p, pathExists p = true → trashOk p = trashOk' p) →
        delete_item pathExists trashOk a = delete_item pathExists trashOk' a)
    ∧ ((∀ i ∈ deleteTargets a, ∀ it, a.items[i]? = some it → pathExists it.path = false) →
        delete_item pathExists trashOk a = calculate_score a) := by
  refine ⟨?_, ?_, ?_⟩
  · intro i it hget hfalse
    have hpres := deleteFold_preserves pathExists trashOk (deleteTargets a) i (some it)
      (fun it' he => by cases he; exact hfalse) a hget
    simpa [delete_item, calculate_score] using hpres
  · intro h
    rw [delete_item, delete_item, deleteFold_trash_congr _ _ _ h]
  · intro h
    rw [delete_item, deleteFold_missing_id _ _ _ _ h]

/-- C9 witness: on `c9App` with a universally-false `pathExists`, the item is
untouched, the trash oracle is irrelevant, and only the score recomputation
happens. -/
theorem c9_delete_skips_missing_witness :
    (delete_item (fun _ => false) (fun _ => true) c9App).items[0]?
        = some { path := "gone", original_size := 50, compressed_size := none
                 status := FileStatus.Found, reason := "", selected := false }
    ∧ delete_item (fun _ => false) (fun _ => true) c9App
        = delete_item (fun _ => false) (fun _ => false) c9App
    ∧ delete_item (fun _ => false) (fun _ => true) c9App = calculate_score c9App := by
  have h := c9_delete_skips_missing (fun _ => false) (fun _ => true) (fun _ => false) c9App
  exact ⟨h.1 0 _ rfl rfl,
    h.2.1 (fun p hp => absurd hp (by simp)),
    h.2.2 (fun i hi it hit => rfl)⟩

/-- C7 counterexample: the claim requires the score to equal the aggregate
formula after *every* state-changing event, but applying a `ScanComplete`
message replaces the item list without recomputing the score: right after a
scan completes with one 10-byte candidate the displayed score is still the 0
set at scan dispatch, while the formula yields 2.6. -/
theorem c7_score_stale_after_scan :
    c7AfterScan.weissman_score = 0
    ∧ scoreOf c7AfterScan.items = 13 / 5
    ∧ c7AfterScan.weissman_score ≠ scoreOf c7AfterScan.items := by
  have h1 : c7AfterScan.weissman_score = 0 := rfl
  have h2 : c7AfterScan.items
      = [{ path := "p", original_size := 10, compressed_size := none, status := .Found
           reason := "r", selected := false }] := rfl
  have h3 : scoreOf c7AfterScan.items = 13 / 5 := by
    rw [h2]
    simp [scoreOf]
    norm_num
  refine ⟨h1, h3, ?_⟩
  rw [h1, h3]
  norm_num

/-- C7 (amended): the score formula yields 0 whenever the effective-size
denominator is zero; the score is recomputed to the aggregate formula after
every applied compression progress message and after every deletion pass —
but not on scan completion (see the counterexample) — and draining a batch of
progress messages with pairwise distinct item indices produces the same final
state in any arrival order. -/
theorem c7_score_recomputation (a : App) (b : Bool) :
    (∀ items : List FileItem,
        (items.map (fun i => i.compressed_size.getD i.original_size)).sum = 0 →
        scoreOf items = 0)
    ∧ (∀ (idx : Nat) (result : Except String CompressionStats), idx < a.items.length →
        (applyMsg (a, b) (.CompressionProgress idx result)).1.weissman_score
          = scoreOf (applyMsg (a, b) (.CompressionProgress idx result)).1.items)
    ∧ (∀ pathExists trashOk : String → Bool,
        (delete_item pathExists trashOk a).weissman_score
          = scoreOf (delete_item pathExists trashOk a).items)
    ∧ (∀ l l' : List AppMessage,
        (∀ m ∈ l, m.isProgress = true) →
        l.Pairwise (fun m n => m.progressIdx ≠ n.progressIdx) →
        l.Perm l' →
        l.foldl applyMsg (a, b) = l'.foldl applyMsg (a, b)) := by
  refine ⟨?_, ?_, ?_, ?_⟩
  · intro items h
    simp only [scoreOf, h]
    simp
  · intro idx result hidx
    simp [applyMsg, applyProgress, if_pos hidx, progressStep, calculate_score]
  · intro pathExists trashOk
    simp [delete_item, calculate_score]
  · intro l l' hall hpair hperm
    refine hperm.foldl_eq' ?_ (a, b)
    intro x hx y hy z
    by_cases hxy : x = y
    · rw [hxy]
    · exact applyMsg_progress_comm z x y (hall x hx) (hall y hy)
        (Or.inr (hpair.forall (fun m n hmn => hmn.symm) hx hy hxy))

/-- C7 witness: on the mid-compression two-item state `c7App`, the score
equals the formula after a progress message and after a deletion pass, and
the two progress messages commute. -/
theorem c7_score_recomputation_witness :
    scoreOf [] = 0
    ∧ (applyMsg (c7App, false)
          (.CompressionProgress 0 (.ok ⟨10, 2, .compressedOut⟩))).1.weissman_score
        = scoreOf (applyMsg (c7App, false)
          (.CompressionProgress 0 (.ok ⟨10, 2, .compressedOut⟩))).1.items
    ∧ (delete_item (fun _ => false) (fun _ => true) c7App).weissman_score
        = scoreOf (delete_item (fun _ => false) (fun _ => true) c7App).items
    ∧ List.foldl applyMsg (c7App, false)
        [.CompressionProgress 0 (.ok ⟨10, 2, .compressedOut⟩),
         .CompressionProgress 1 (.error "disk full")]
      = List.foldl applyMsg (c7App, false)
        [.CompressionProgress 1 (.error "disk full"),
         .CompressionProgress 0 (.ok ⟨10, 2, .compressedOut⟩)] := by
  have h := c7_score_recomputation c7App false
  refine ⟨h.1 [] rfl, h.2.1 0 _ (by decide), h.2.2.1 _ _, ?_⟩
  refine h.2.2.2 _ _ ?_ ?_ ?_
  · intro m hm
    rcases List.mem_cons.1 hm with rfl | hm
    · rfl
    · rcases List.mem_cons.1 hm with rfl | hm
      · rfl
      · simp at hm
  · simp [List.pairwise_cons, AppMessage.progressIdx]
  · exact List.Perm.swap _ _ _

end Piper
